import Mathlib

/-!
A shallow embedding of the filecache package (filecache.go) together with
theorems checking the natural-language specification against it.

Modelling conventions:
* Bytes are lists of naturals; the Go string conversions of file content
  keep the same byte list.
* Go time.Time values are modelled as integer numbers of seconds.  The
  source computes the age of an entry by printing the duration in seconds
  with zero decimals and parsing the result back; at whole-second
  resolution this round-trips exactly, so the model takes the difference
  of the two timestamps directly.
* The filesystem is a snapshot: an association list from path to file
  data.  stat reports the byte length of the content as the size, which
  is what a consistent filesystem instant reports; stat failures and read
  failures are modelled by boolean flags on the file data.
* Go maps are association lists.  Reading a nil map yields the zero
  value, writing to a nil map panics; the panic is reported through
  GoResult.
* Channels are modelled only as far as the claims need them: the intake
  pipe is nil, open, or closed, and closing a non-open pipe panics.
* Goroutine spawns (the go statements on the read paths) are recorded as
  a list of spawned cache requests and are not executed; their store
  effects are asynchronous and outside the sequential model.
-/

namespace Filecache

/-- Outcome of running a Go statement that can panic. -/
inductive GoResult (α : Type) where
  | ok (a : α)
  | panicked
  deriving Repr, DecidableEq

/-- The byte content of a file, one natural per byte. -/
abbrev Bytes := List Nat

/-- cacheItem from the source: content, recorded size, last access and
modification timestamps (integer seconds). -/
structure cacheItem where
  Content : Bytes
  Size : Int
  Lastaccess : Int
  Modified : Int
  deriving Repr, DecidableEq

/-- State of the in_pipe channel. -/
inductive PipeState where
  | nil
  | opened
  | closed
  deriving Repr, DecidableEq

/-- FileCache from the source.  The nil Go map is modelled by
items = none; the channel by a PipeState. -/
structure FileCache where
  items : Option (List (String × cacheItem))
  in_pipe : PipeState
  MaxItems : Int
  MaxSize : Int
  ExpireItem : Int
  Every : Int
  deriving Repr, DecidableEq

/-- The error values of the package; osError stands for an error value
coming from the operating system, distinguishable from all package
errors. -/
inductive CacheErr where
  | invalidCacheItem
  | itemIsDirectory
  | itemNotInCache
  | itemTooLarge
  | writeIncomplete
  | osError
  deriving Repr, DecidableEq

/-- Data of one file in the filesystem snapshot. -/
structure FData where
  content : Bytes
  isDir : Bool
  modTime : Int
  statErr : Bool
  readErr : Bool
  deriving Repr, DecidableEq

/-- The part of os.FileInfo the source reads: Size, IsDir, ModTime. -/
structure FileInfo where
  size : Int
  isDir : Bool
  modTime : Int
  deriving Repr, DecidableEq

/-- A filesystem snapshot. -/
structure FS where
  files : List (String × FData)
  deriving Repr, DecidableEq

/-- Association-list lookup (Go map read; absent key gives the zero
value, here none). -/
def alGet {β : Type} (k : String) : List (String × β) → Option β
  | [] => none
  | (k2, v) :: rest => if k2 = k then some v else alGet k rest

/-- Association-list update (Go map assignment m[k] = v). -/
def alSet {β : Type} (k : String) (v : β) : List (String × β) → List (String × β)
  | [] => [(k, v)]
  | (k2, v2) :: rest => if k2 = k then (k, v) :: rest else (k2, v2) :: alSet k v rest

/-- Association-list removal (Go delete(m, k)). -/
def alDel {β : Type} (k : String) (l : List (String × β)) : List (String × β) :=
  l.filter (fun p => !(p.1 == k))

/-- os.Stat against the snapshot: file info on success, none on error.
A real filesystem instant reports the byte length of the content as the
size. -/
def FS.statF (fs : FS) (name : String) : Option FileInfo :=
  match alGet name fs.files with
  | none => none
  | some d =>
    if d.statErr then none
    else some { size := (d.content.length : Int), isDir := d.isDir, modTime := d.modTime }

/-- ioutil.ReadFile against the snapshot: the bytes on success, none on
error. -/
def FS.readAll (fs : FS) (name : String) : Option Bytes :=
  match alGet name fs.files with
  | none => none
  | some d => if d.readErr then none else some d.content

/-- NewCache: the zero FileCache, nil store and nil pipe. -/
def NewCache : FileCache :=
  { items := none, in_pipe := PipeState.nil,
    MaxItems := 0, MaxSize := 0, ExpireItem := 0, Every := 0 }

def DefaultExpireItem : Int := 300
def DefaultMaxSize : Int := 32 * 1024 * 1024
def DefaultMaxItems : Int := 32
def DefaultEvery : Int := 60

/-- NewDefaultCache: zero cache with the package defaults filled in. -/
def NewDefaultCache : FileCache :=
  { NewCache with
    MaxItems := DefaultMaxItems, MaxSize := DefaultMaxSize,
    ExpireItem := DefaultExpireItem, Every := DefaultEvery }

/-- The entries of the store; the nil map reads as empty. -/
def FileCache.itemsList (c : FileCache) : List (String × cacheItem) :=
  c.items.getD []

/-- Go map read items[name]. -/
def FileCache.lookupItem (c : FileCache) (name : String) : Option cacheItem :=
  alGet name c.itemsList

/-- Active from the source. -/
def FileCache.Active (c : FileCache) : Bool :=
  if c.in_pipe = PipeState.nil ∨ c.items = none then false else true

/-- Size from the source: len(items); a nil map has length 0. -/
def FileCache.Size (c : FileCache) : Int :=
  (c.itemsList.length : Int)

/-- FileSize from the source: sum of the stored Size fields. -/
def FileCache.FileSize (c : FileCache) : Int :=
  c.itemsList.foldl (fun acc p => acc + p.2.Size) 0

/-- StoredFiles from the source: the list of keys. -/
def FileCache.StoredFiles (c : FileCache) : List String :=
  c.itemsList.map Prod.fst

/-- InCache from the source. -/
def FileCache.InCache (c : FileCache) (name : String) : Bool :=
  (c.lookupItem name).isSome

/-- changed from the source: stale when the entry is absent, the stat
fails, or the live modification time differs from the stored one. -/
def FileCache.changed (c : FileCache) (fs : FS) (name : String) : Bool :=
  match c.lookupItem name with
  | none => true
  | some itm =>
    match fs.statF name with
    | none => true
    | some fi => !(itm.Modified == fi.modTime)

/-- expired from the source: the age of the last access, in whole
seconds, has reached ExpireItem.  The source prints the duration in
seconds with zero decimals and parses it back with Atoi; at the
second resolution of the model this is the plain difference and the
parse cannot fail. -/
def FileCache.expired (c : FileCache) (now : Int) (name : String) : Bool :=
  match c.lookupItem name with
  | none => true
  | some itm => decide (now - itm.Lastaccess ≥ c.ExpireItem)

/-- item_expired from the source: changed-on-disk first, then the age
check guarded by ExpireItem not being 0. -/
def FileCache.item_expired (c : FileCache) (fs : FS) (now : Int) (name : String) : Bool :=
  if c.changed fs name then true
  else if c.ExpireItem != 0 && c.expired now name then true
  else false

/-- WriteItem from the source.  The writer is modelled by the count of
bytes it accepted and an error flag. -/
def FileCache.WriteItem (c : FileCache) (w : Bytes → Int × Bool) (name : String) :
    Option CacheErr :=
  match c.lookupItem name with
  | none => some CacheErr.itemNotInCache
  | some itm =>
    if (w itm.Content).2 then some CacheErr.osError
    else if (w itm.Content).1 != itm.Size then some CacheErr.writeIncomplete
    else none

/-- GetItem from the source: cached content and a found flag; the
absent case yields the nil slice. -/
def FileCache.GetItem (c : FileCache) (name : String) : Bytes × Bool :=
  match c.lookupItem name with
  | none => ([], false)
  | some itm => (itm.Content, true)

/-- GetItemString from the source; the string conversion keeps the same
bytes. -/
def FileCache.GetItemString (c : FileCache) (name : String) : Bytes × Bool :=
  match c.lookupItem name with
  | none => ([], false)
  | some itm => (itm.Content, true)

/-- ReadFile from the source.  Result: content, error, the store state
after the synchronous part (the hit path never writes), and the list of
names handed to the background go cache.Cache spawn. -/
def FileCache.ReadFile (c : FileCache) (fs : FS) (name : String) :
    Bytes × Option CacheErr × FileCache × List String :=
  if c.InCache name then ((c.GetItem name).1, none, c, [])
  else
    match fs.readAll name with
    | some content => (content, some CacheErr.itemNotInCache, c, [name])
    | none => ([], some CacheErr.osError, c, [name])

/-- ReadFileString from the source.  In the miss branch the source
declares raw, err with a short variable declaration inside the else
block, so the inner err shadows the named return value: the assignments
of ItemNotInCache (and of the read error) land in the shadowed variable
and the function returns a nil error in every miss case.  The model
reproduces that. -/
def FileCache.ReadFileString (c : FileCache) (fs : FS) (name : String) :
    Bytes × Option CacheErr × FileCache × List String :=
  if c.InCache name then ((c.GetItemString name).1, none, c, [])
  else
    match fs.readAll name with
    | some raw => (raw, none, c, [name])
    | none => ([], none, c, [name])

/-- The entry a successful population builds: content from the read,
size and modification time from the stat, last access set to now. -/
def newItem (fi : FileInfo) (content : Bytes) (now : Int) : cacheItem :=
  { Content := content, Size := fi.size, Lastaccess := now, Modified := fi.modTime }

/-- The cache after the store assignment items[name] = itm, with l the
entries of the non-nil store. -/
def FileCache.withItem (c : FileCache) (name : String) (itm : cacheItem)
    (l : List (String × cacheItem)) : FileCache :=
  { c with items := some (alSet name itm l) }

/-- The tail of add_item after the freshness check and the conditional
delete: stat, directory and size checks, read, insert.  Writing to a
nil store panics. -/
def FileCache.add_fetch (c : FileCache) (fs : FS) (now : Int) (name : String) :
    GoResult (Option CacheErr × FileCache) :=
  match fs.statF name with
  | none => GoResult.ok (some CacheErr.osError, c)
  | some fi =>
    if fi.isDir then GoResult.ok (some CacheErr.itemIsDirectory, c)
    else if fi.size > c.MaxSize then GoResult.ok (some CacheErr.itemTooLarge, c)
    else
      match fs.readAll name with
      | none => GoResult.ok (some CacheErr.osError, c)
      | some content =>
        match c.items with
        | none => GoResult.panicked
        | some l =>
          if !((c.withItem name (newItem fi content now) l).InCache name) then
            GoResult.ok (some CacheErr.itemNotInCache, c.withItem name (newItem fi content now) l)
          else GoResult.ok (none, c.withItem name (newItem fi content now) l)

/-- add_item from the source: present and fresh is a no-op; a present
stale entry is deleted first; then the fetch-and-insert tail runs. -/
def FileCache.add_item (c : FileCache) (fs : FS) (now : Int) (name : String) :
    GoResult (Option CacheErr × FileCache) :=
  if c.InCache name && !(c.item_expired fs now name) then GoResult.ok (none, c)
  else
    FileCache.add_fetch
      (if c.InCache name then { c with items := c.items.map (alDel name) } else c)
      fs now name

/-- The scan of expire_oldest: fold over the entries carrying the
current oldest timestamp and name, starting from (now, empty name). -/
def scanOldest (force : Bool) : List (String × cacheItem) → Int × String → Int × String
  | [], acc => acc
  | (name, itm) :: rest, (oldest, oname) =>
    if force && oname == "" then scanOldest force rest (itm.Lastaccess, name)
    else if itm.Lastaccess < oldest then scanOldest force rest (itm.Lastaccess, name)
    else scanOldest force rest (oldest, oname)

/-- expire_oldest from the source: scan for the oldest entry, delete it
when a name was selected. -/
def FileCache.expire_oldest (c : FileCache) (force : Bool) (now : Int) : FileCache :=
  if (scanOldest force c.itemsList (now, "")).2 != "" then
    { c with items := c.items.map (alDel (scanOldest force c.itemsList (now, "")).2) }
  else c

/-- CacheNow from the source: forced eviction when the count equals
MaxItems, then the synchronous add. -/
def FileCache.CacheNow (c : FileCache) (fs : FS) (now : Int) (name : String) :
    GoResult (Option CacheErr × FileCache) :=
  FileCache.add_item
    (if c.Size == c.MaxItems then c.expire_oldest true now else c)
    fs now name

/-- Go close on a channel: only an open channel closes; a nil or an
already closed one panics. -/
def closeChan : PipeState → GoResult PipeState
  | PipeState.nil => GoResult.panicked
  | PipeState.opened => GoResult.ok PipeState.closed
  | PipeState.closed => GoResult.panicked

/-- Start from the source: close the previous pipe when one is set, then
install a fresh store and a fresh pipe.  The two spawned goroutines are
outside the sequential model. -/
def FileCache.Start (c : FileCache) : GoResult FileCache :=
  match (if c.in_pipe != PipeState.nil then closeChan c.in_pipe else GoResult.ok c.in_pipe) with
  | GoResult.panicked => GoResult.panicked
  | GoResult.ok _ =>
    GoResult.ok { c with items := some [], in_pipe := PipeState.opened }

/-- Stop from the source: close the pipe when one is set, clear the
store.  The pipe field itself is not reset to nil. -/
def FileCache.Stop (c : FileCache) : GoResult FileCache :=
  match (if c.in_pipe != PipeState.nil then closeChan c.in_pipe else GoResult.ok c.in_pipe) with
  | GoResult.panicked => GoResult.panicked
  | GoResult.ok p => GoResult.ok { c with in_pipe := p, items := none }

/-- Remove from the source. -/
def FileCache.Remove (c : FileCache) (name : String) : Bool × FileCache :=
  match c.lookupItem name with
  | none => (false, c)
  | some _ =>
    match ({ c with items := c.items.map (alDel name) } : FileCache).lookupItem name with
    | some _ => (false, { c with items := c.items.map (alDel name) })
    | none => (true, { c with items := c.items.map (alDel name) })

/-- First phase of one vaccuum cycle: delete every expired key.  The
source deletes inside the range loop; since the check of a key reads
only the entry of that key, the snapshot and the store at the moment of
its visit agree, and the phase equals a filter. -/
def FileCache.sweepExpired (c : FileCache) (fs : FS) (now : Int) : FileCache :=
  match c.items with
  | none => c
  | some l =>
    { c with items := some (l.filter (fun p => !(c.item_expired fs now p.1))) }

/-- Second phase of one vaccuum cycle: while the count exceeds MaxItems,
force-evict the oldest entry.  The fuel bounds the iterations; on the
states the maintenance loop reaches, each iteration removes one entry,
so a fuel equal to the entry count covers the loop of the source. -/
def FileCache.shrinkTo (c : FileCache) (now : Int) : Nat → FileCache
  | 0 => c
  | fuel + 1 =>
    if c.Size > c.MaxItems then (c.expire_oldest true now).shrinkTo now fuel
    else c

/-- One cycle of the vaccuum maintenance loop on a woken cache: sweep
the expired keys, then shrink to the MaxItems ceiling. -/
def FileCache.vaccuumCycle (c : FileCache) (fs : FS) (now : Int) : FileCache :=
  FileCache.shrinkTo (c.sweepExpired fs now) now (c.sweepExpired fs now).itemsList.length

/-! ## Helper definitions used by the statements -/

/-- The error component of a non-panicking add result. -/
def resErr : GoResult (Option CacheErr × FileCache) → Option (Option CacheErr)
  | GoResult.ok p => some p.1
  | GoResult.panicked => none

/-- The store of a non-panicking add result. -/
def resItems :
    GoResult (Option CacheErr × FileCache) → Option (Option (List (String × cacheItem)))
  | GoResult.ok p => some p.2.items
  | GoResult.panicked => none

/-- The lookup of one key in the store of a non-panicking add result. -/
def resLookup (name : String) :
    GoResult (Option CacheErr × FileCache) → Option (Option cacheItem)
  | GoResult.ok p => some (p.2.lookupItem name)
  | GoResult.panicked => none

/-- True when the call did not panic and left a store with at most m
entries. -/
def resSizeLe (m : Int) : GoResult (Option CacheErr × FileCache) → Bool
  | GoResult.ok p => decide (p.2.Size ≤ m)
  | GoResult.panicked => false

/-- The name selected by the eviction scan of expire_oldest in force
mode. -/
def oldestName (c : FileCache) (now : Int) : String :=
  (scanOldest true c.itemsList (now, "")).2

/-- The timestamp selected by the eviction scan of expire_oldest in
force mode. -/
def oldestStamp (c : FileCache) (now : Int) : Int :=
  (scanOldest true c.itemsList (now, "")).1

/-- t is at most the last access time of every stored entry. -/
def minLastAccessB (c : FileCache) (t : Int) : Bool :=
  c.itemsList.all fun p => decide (t ≤ p.2.Lastaccess)

/-- No stored key is marked expired by the staleness policy. -/
def expiredFreeB (c : FileCache) (fs : FS) (now : Int) : Bool :=
  c.itemsList.all fun p => !(c.item_expired fs now p.1)

/-- Every stored entry records the byte length of its content as its
size. -/
def sizeInvB (c : FileCache) : Bool :=
  c.itemsList.all fun p => p.2.Size == (p.2.Content.length : Int)

/-- Every stored key is a nonempty string; true of every reachable
store, since stat of the empty path fails and population inserts only
keys the stat accepted. -/
def keysNonemptyB (c : FileCache) : Bool :=
  c.itemsList.all fun p => !(p.1 == "")

/-- The size invariant of a possibly panicking state result; a panic
leaves no resulting state to check. -/
def sizeInvG : GoResult FileCache → Bool
  | GoResult.ok c => sizeInvB c
  | GoResult.panicked => true

/-- The size invariant of the state of a possibly panicking add result. -/
def sizeInvR : GoResult (Option CacheErr × FileCache) → Bool
  | GoResult.ok p => sizeInvB p.2
  | GoResult.panicked => true

/-- A writer that accepts every byte handed to it and reports no
error. -/
def fullWriter : Bytes → Int × Bool :=
  fun b => ((b.length : Int), false)

/-- Sequencing of panicking steps, for expressing call chains: a panic
propagates. -/
def goSeq {α : Type} : GoResult α → (α → GoResult α) → GoResult α
  | GoResult.ok a, f => f a
  | GoResult.panicked, _ => GoResult.panicked

/-! ## Concrete fixtures for witnesses and counterexamples -/

/-- A cached entry of two bytes, last accessed at 3, modified at 5. -/
def itmA : cacheItem := { Content := [1, 2], Size := 2, Lastaccess := 3, Modified := 5 }

/-- A cached entry of one byte, older than itmA. -/
def itmB : cacheItem := { Content := [7], Size := 1, Lastaccess := 1, Modified := 4 }

/-- File a on disk: two bytes, modification time matching itmA. -/
def fdA : FData :=
  { content := [1, 2], isDir := false, modTime := 5, statErr := false, readErr := false }

/-- File c on disk: one byte. -/
def fdC : FData :=
  { content := [9], isDir := false, modTime := 2, statErr := false, readErr := false }

/-- File bad on disk: stat succeeds, read fails. -/
def fdBad : FData :=
  { content := [3], isDir := false, modTime := 1, statErr := false, readErr := true }

/-- The snapshot used by the concrete theorems; file b does not exist. -/
def fsA : FS := { files := [("a", fdA), ("c", fdC), ("bad", fdBad)] }

/-- An active cache holding entries a and b, with MaxItems 0. -/
def cacheBase : FileCache :=
  { items := some [("a", itmA), ("b", itmB)], in_pipe := PipeState.opened,
    MaxItems := 0, MaxSize := 100, ExpireItem := 0, Every := 60 }

/-- An active empty cache with MaxItems 5 and MaxSize 0. -/
def cEmpty5 : FileCache := { cacheBase with items := some [], MaxItems := 5, MaxSize := 0 }

/-- An active cache holding only b, at capacity MaxItems 1, MaxSize 0. -/
def cB1 : FileCache := { cacheBase with items := some [("b", itmB)], MaxItems := 1, MaxSize := 0 }

/-- An active empty cache with room. -/
def cMiss : FileCache := { cacheBase with items := some [], MaxItems := 10 }

/-- cacheBase at capacity 2, holding exactly a and b. -/
def cAB2 : FileCache := { cacheBase with MaxItems := 2 }

/-- A cache with one entry and an age-based expiry of 7 seconds. -/
def cAge : FileCache := { cacheBase with items := some [("a", itmA)], ExpireItem := 7, MaxItems := 4 }

/-! ## Association-list lemmas -/

theorem alGet_cons {β : Type} (k : String) (q : String × β) (rest : List (String × β)) :
    alGet k (q :: rest) = if q.1 = k then some q.2 else alGet k rest := by
  obtain ⟨q1, q2⟩ := q
  rfl

theorem alDel_cons {β : Type} (k : String) (q : String × β) (rest : List (String × β)) :
    alDel k (q :: rest) = if q.1 = k then alDel k rest else q :: alDel k rest := by
  by_cases hq : q.1 = k <;> simp [alDel, List.filter_cons, hq]

theorem alSet_cons {β : Type} (k : String) (v : β) (q : String × β)
    (rest : List (String × β)) :
    alSet k v (q :: rest) = if q.1 = k then (k, v) :: rest else q :: alSet k v rest := by
  obtain ⟨q1, q2⟩ := q
  rfl

theorem mem_of_mem_alDel {β : Type} {k : String} {l : List (String × β)} {p : String × β}
    (h : p ∈ alDel k l) : p ∈ l :=
  (List.mem_filter.mp h).1

theorem alDel_sublist {β : Type} (k : String) (l : List (String × β)) :
    (alDel k l).Sublist l :=
  List.filter_sublist l

theorem alGet_alDel_self {β : Type} (k : String) (l : List (String × β)) :
    alGet k (alDel k l) = none := by
  induction l with
  | nil => rfl
  | cons q rest ih =>
    rw [alDel_cons]
    by_cases hq : q.1 = k
    · rw [if_pos hq]
      exact ih
    · rw [if_neg hq, alGet_cons, if_neg hq]
      exact ih

theorem alGet_alDel_ne {β : Type} {k k2 : String} (hne : k ≠ k2) (l : List (String × β)) :
    alGet k (alDel k2 l) = alGet k l := by
  induction l with
  | nil => rfl
  | cons q rest ih =>
    rw [alDel_cons, alGet_cons]
    by_cases hq : q.1 = k2
    · rw [if_pos hq]
      have hqk : ¬ q.1 = k := fun h => hne (by rw [← h, hq])
      rw [if_neg hqk]
      exact ih
    · rw [if_neg hq, alGet_cons]
      by_cases hqk : q.1 = k
      · rw [if_pos hqk, if_pos hqk]
      · rw [if_neg hqk, if_neg hqk]
        exact ih

theorem alGet_none_of_forall {β : Type} {k : String} {l : List (String × β)}
    (h : ∀ p ∈ l, p.1 ≠ k) : alGet k l = none := by
  induction l with
  | nil => rfl
  | cons q rest ih =>
    rw [alGet_cons, if_neg (h q (List.mem_cons_self q rest))]
    exact ih fun p hp => h p (List.mem_cons_of_mem q hp)

theorem forall_of_alGet_none {β : Type} {k : String} {l : List (String × β)}
    (h : alGet k l = none) : ∀ p ∈ l, p.1 ≠ k := by
  induction l with
  | nil =>
    intro p hp
    cases hp
  | cons q rest ih =>
    rw [alGet_cons] at h
    by_cases hq : q.1 = k
    · rw [if_pos hq] at h
      cases h
    · rw [if_neg hq] at h
      intro p hp
      rcases List.mem_cons.mp hp with rfl | hp2
      · exact hq
      · exact ih h p hp2

theorem alDel_of_alGet_none {β : Type} {k : String} {l : List (String × β)}
    (h : alGet k l = none) : alDel k l = l := by
  induction l with
  | nil => rfl
  | cons q rest ih =>
    rw [alGet_cons] at h
    by_cases hq : q.1 = k
    · rw [if_pos hq] at h
      cases h
    · rw [if_neg hq] at h
      rw [alDel_cons, if_neg hq, ih h]

theorem alGet_isSome_of_mem {β : Type} {k : String} {v : β} {l : List (String × β)}
    (h : (k, v) ∈ l) : (alGet k l).isSome = true := by
  induction l with
  | nil => cases h
  | cons q rest ih =>
    rw [alGet_cons]
    by_cases hq : q.1 = k
    · rw [if_pos hq]
      rfl
    · rw [if_neg hq]
      rcases List.mem_cons.mp h with heq | hmem
      · exact absurd (congrArg Prod.fst heq.symm) hq
      · exact ih hmem

theorem alGet_of_mem_nodup {β : Type} {k : String} {v : β} {l : List (String × β)}
    (hnd : (l.map Prod.fst).Nodup) (h : (k, v) ∈ l) : alGet k l = some v := by
  induction l with
  | nil => cases h
  | cons q rest ih =>
    rw [List.map_cons, List.nodup_cons] at hnd
    rw [alGet_cons]
    rcases List.mem_cons.mp h with heq | hmem
    · rw [if_pos (congrArg Prod.fst heq.symm)]
      rw [show q.2 = v from congrArg Prod.snd heq.symm]
    · have hq : ¬ q.1 = k := by
        intro hq
        refine hnd.1 ?_
        rw [hq]
        exact List.mem_map.mpr ⟨(k, v), hmem, rfl⟩
      rw [if_neg hq]
      exact ih hnd.2 hmem

theorem alDel_length_of_mem {β : Type} {k : String} {v : β} {l : List (String × β)}
    (hnd : (l.map Prod.fst).Nodup) (h : (k, v) ∈ l) :
    (alDel k l).length + 1 = l.length := by
  induction l with
  | nil => cases h
  | cons q rest ih =>
    rw [List.map_cons, List.nodup_cons] at hnd
    rcases List.mem_cons.mp h with heq | hmem
    · have hq : q.1 = k := congrArg Prod.fst heq.symm
      rw [alDel_cons, if_pos hq]
      have hnone : alGet k rest = none := by
        refine alGet_none_of_forall fun p hp hpk => ?_
        refine hnd.1 ?_
        rw [hq, ← hpk]
        exact List.mem_map.mpr ⟨p, hp, rfl⟩
      rw [alDel_of_alGet_none hnone, List.length_cons]
    · have hq : ¬ q.1 = k := by
        intro hq
        refine hnd.1 ?_
        rw [hq]
        exact List.mem_map.mpr ⟨(k, v), hmem, rfl⟩
      rw [alDel_cons, if_neg hq, List.length_cons, List.length_cons]
      rw [← ih hnd.2 hmem]

theorem alSet_length_le {β : Type} (k : String) (v : β) (l : List (String × β)) :
    (alSet k v l).length ≤ l.length + 1 := by
  induction l with
  | nil => simp [alSet]
  | cons q rest ih =>
    rw [alSet_cons]
    by_cases hq : q.1 = k
    · rw [if_pos hq]
      simp
    · rw [if_neg hq, List.length_cons, List.length_cons]
      omega

theorem mem_alSet {β : Type} {k : String} {v : β} {l : List (String × β)} {p : String × β}
    (h : p ∈ alSet k v l) : p = (k, v) ∨ p ∈ l := by
  induction l with
  | nil => simpa [alSet] using h
  | cons q rest ih =>
    rw [alSet_cons] at h
    by_cases hq : q.1 = k
    · rw [if_pos hq] at h
      rcases List.mem_cons.mp h with rfl | hmem
      · exact Or.inl rfl
      · exact Or.inr (List.mem_cons_of_mem _ hmem)
    · rw [if_neg hq] at h
      rcases List.mem_cons.mp h with rfl | hmem
      · exact Or.inr (List.mem_cons_self _ _)
      · rcases ih hmem with h1 | h2
        · exact Or.inl h1
        · exact Or.inr (List.mem_cons_of_mem _ h2)

theorem alGet_alSet_self {β : Type} (k : String) (v : β) (l : List (String × β)) :
    alGet k (alSet k v l) = some v := by
  induction l with
  | nil => simp [alSet, alGet]
  | cons q rest ih =>
    rw [alSet_cons]
    by_cases hq : q.1 = k
    · rw [if_pos hq]
      simp [alGet_cons]
    · rw [if_neg hq, alGet_cons, if_neg hq]
      exact ih


/-! ## Cache-level helper lemmas -/

theorem item_expired_congr {c c2 : FileCache} (fs : FS) (now : Int) (name : String)
    (hl : c2.lookupItem name = c.lookupItem name)
    (he : c2.ExpireItem = c.ExpireItem) :
    c2.item_expired fs now name = c.item_expired fs now name := by
  unfold FileCache.item_expired FileCache.changed FileCache.expired
  rw [hl, he]

theorem lookupItem_mapDel (c : FileCache) (k name : String) :
    ({ c with items := c.items.map (alDel k) } : FileCache).lookupItem name =
      alGet name (alDel k c.itemsList) := by
  cases hi : c.items <;>
    simp [FileCache.lookupItem, FileCache.itemsList, hi, alDel]

theorem itemsList_mapDel (c : FileCache) (k : String) :
    ({ c with items := c.items.map (alDel k) } : FileCache).itemsList =
      alDel k c.itemsList := by
  cases hi : c.items <;> simp [FileCache.itemsList, hi, alDel]

theorem expire_oldest_MaxItems (c : FileCache) (f : Bool) (now : Int) :
    (c.expire_oldest f now).MaxItems = c.MaxItems := by
  unfold FileCache.expire_oldest
  split <;> rfl

theorem expire_oldest_MaxSize (c : FileCache) (f : Bool) (now : Int) :
    (c.expire_oldest f now).MaxSize = c.MaxSize := by
  unfold FileCache.expire_oldest
  split <;> rfl

theorem expire_oldest_ExpireItem (c : FileCache) (f : Bool) (now : Int) :
    (c.expire_oldest f now).ExpireItem = c.ExpireItem := by
  unfold FileCache.expire_oldest
  split <;> rfl

theorem expire_oldest_lookup (c : FileCache) (f : Bool) (now : Int) (name : String) :
    (c.expire_oldest f now).lookupItem name = none ∨
      (c.expire_oldest f now).lookupItem name = c.lookupItem name := by
  unfold FileCache.expire_oldest
  split
  · rw [lookupItem_mapDel]
    by_cases hn : name = (scanOldest f c.itemsList (now, "")).2
    · left
      rw [hn, alGet_alDel_self]
    · right
      rw [alGet_alDel_ne hn]
      rfl
  · right
    rfl

theorem expire_oldest_mem {c : FileCache} {f : Bool} {now : Int} {p : String × cacheItem} :
    p ∈ (c.expire_oldest f now).itemsList → p ∈ c.itemsList := by
  unfold FileCache.expire_oldest
  split
  · rw [itemsList_mapDel]
    exact mem_of_mem_alDel
  · exact id

theorem scanOldest_start (k : String) (itm : cacheItem) (rest : List (String × cacheItem))
    (o : Int) :
    scanOldest true ((k, itm) :: rest) (o, "") = scanOldest true rest (itm.Lastaccess, k) := by
  simp [scanOldest]

theorem scanOldest_spec (L : List (String × cacheItem)) :
    ∀ (o : Int) (n : String), n ≠ "" → (∀ p ∈ L, p.1 ≠ "") →
      (scanOldest true L (o, n)).2 ≠ "" ∧
      (scanOldest true L (o, n)).1 ≤ o ∧
      (∀ p ∈ L, (scanOldest true L (o, n)).1 ≤ p.2.Lastaccess) ∧
      (scanOldest true L (o, n) = (o, n) ∨
        ∃ itm, ((scanOldest true L (o, n)).2, itm) ∈ L ∧
          (scanOldest true L (o, n)).1 = itm.Lastaccess) := by
  induction L with
  | nil =>
    intro o n hn hk
    exact ⟨hn, le_refl o, fun p hp => absurd hp (List.not_mem_nil p), Or.inl rfl⟩
  | cons q rest ih =>
    intro o n hn hk
    obtain ⟨k, itm⟩ := q
    have hkne : k ≠ "" := hk (k, itm) (List.mem_cons_self _ _)
    have hrest : ∀ p ∈ rest, p.1 ≠ "" := fun p hp => hk p (List.mem_cons_of_mem _ hp)
    have hb : (n == "") = false := beq_eq_false_iff_ne.mpr hn
    by_cases hlt : itm.Lastaccess < o
    · have hred : scanOldest true ((k, itm) :: rest) (o, n) =
          scanOldest true rest (itm.Lastaccess, k) := by
        simp [scanOldest, hb, hlt]
      rw [hred]
      obtain ⟨h1, h2, h3, h4⟩ := ih itm.Lastaccess k hkne hrest
      refine ⟨h1, le_trans h2 (le_of_lt hlt), ?_, ?_⟩
      · intro p hp
        rcases List.mem_cons.mp hp with rfl | hp2
        · exact h2
        · exact h3 p hp2
      · rcases h4 with heq | ⟨itm2, hm, hv⟩
        · right
          refine ⟨itm, ?_, ?_⟩
          · rw [heq]
            exact List.mem_cons_self _ _
          · rw [heq]
        · right
          exact ⟨itm2, List.mem_cons_of_mem _ hm, hv⟩
    · have hred : scanOldest true ((k, itm) :: rest) (o, n) =
          scanOldest true rest (o, n) := by
        simp [scanOldest, hb, hlt]
      rw [hred]
      obtain ⟨h1, h2, h3, h4⟩ := ih o n hn hrest
      push_neg at hlt
      refine ⟨h1, h2, ?_, ?_⟩
      · intro p hp
        rcases List.mem_cons.mp hp with rfl | hp2
        · exact le_trans h2 hlt
        · exact h3 p hp2
      · rcases h4 with heq | ⟨itm2, hm, hv⟩
        · exact Or.inl heq
        · exact Or.inr ⟨itm2, List.mem_cons_of_mem _ hm, hv⟩

theorem expire_oldest_spec (c : FileCache) (now : Int) (q : String × cacheItem)
    (L : List (String × cacheItem)) (hi : c.items = some (q :: L))
    (hk : ∀ p ∈ q :: L, p.1 ≠ "") :
    ∃ k itm, (k, itm) ∈ q :: L ∧
      (∀ p ∈ q :: L, itm.Lastaccess ≤ p.2.Lastaccess) ∧
      c.expire_oldest true now = { c with items := some (alDel k (q :: L)) } := by
  obtain ⟨k0, i0⟩ := q
  have hIL : c.itemsList = (k0, i0) :: L := by
    simp [FileCache.itemsList, hi]
  have hstep : scanOldest true c.itemsList (now, "") =
      scanOldest true L (i0.Lastaccess, k0) := by
    rw [hIL, scanOldest_start]
  have hk0 : k0 ≠ "" := hk (k0, i0) (List.mem_cons_self _ _)
  have hrest : ∀ p ∈ L, p.1 ≠ "" := fun p hp => hk p (List.mem_cons_of_mem _ hp)
  obtain ⟨h1, h2, h3, h4⟩ := scanOldest_spec L i0.Lastaccess k0 hk0 hrest
  have hbr : ((scanOldest true c.itemsList (now, "")).2 != "") = true := by
    rw [hstep]
    exact bne_iff_ne.mpr h1
  have heo : c.expire_oldest true now =
      { c with items := some (alDel (scanOldest true L (i0.Lastaccess, k0)).2 ((k0, i0) :: L)) } := by
    unfold FileCache.expire_oldest
    rw [if_pos hbr, hstep, hi]
    rfl
  rcases h4 with heq | ⟨itm2, hm, hv⟩
  · refine ⟨k0, i0, List.mem_cons_self _ _, ?_, ?_⟩
    · intro p hp
      rcases List.mem_cons.mp hp with rfl | hp2
      · exact le_refl _
      · have h5 := h3 p hp2
        rw [heq] at h5
        exact h5
    · rw [heo, heq]
  · refine ⟨(scanOldest true L (i0.Lastaccess, k0)).2, itm2,
      List.mem_cons_of_mem _ hm, ?_, heo⟩
    intro p hp
    rcases List.mem_cons.mp hp with rfl | hp2
    · rw [← hv]
      exact h2
    · rw [← hv]
      exact h3 p hp2

theorem add_fetch_ok_of_some {c : FileCache} {l : List (String × cacheItem)}
    (hi : c.items = some l) (fs : FS) (now : Int) (name : String) :
    ∃ e c2, c.add_fetch fs now name = GoResult.ok (e, c2) ∧
      c2.Size ≤ c.Size + 1 ∧ c2.MaxItems = c.MaxItems := by
  unfold FileCache.add_fetch
  split
  · exact ⟨_, _, rfl, by linarith, rfl⟩
  · split
    · exact ⟨_, _, rfl, by linarith, rfl⟩
    · split
      · exact ⟨_, _, rfl, by linarith, rfl⟩
      · split
        · exact ⟨_, _, rfl, by linarith, rfl⟩
        · split
          · next heq =>
            rw [hi] at heq
            cases heq
          · next l2 heq =>
            split
            · refine ⟨_, _, rfl, ?_, rfl⟩
              simp only [FileCache.withItem, FileCache.Size, FileCache.itemsList, heq,
                Option.getD_some]
              exact_mod_cast alSet_length_le _ _ _
            · refine ⟨_, _, rfl, ?_, rfl⟩
              simp only [FileCache.withItem, FileCache.Size, FileCache.itemsList, heq,
                Option.getD_some]
              exact_mod_cast alSet_length_le _ _ _

theorem add_item_ok_of_some {c : FileCache} {l : List (String × cacheItem)}
    (hi : c.items = some l) (fs : FS) (now : Int) (name : String) :
    ∃ e c2, c.add_item fs now name = GoResult.ok (e, c2) ∧
      c2.Size ≤ c.Size + 1 ∧ c2.MaxItems = c.MaxItems := by
  unfold FileCache.add_item
  split
  · exact ⟨_, _, rfl, by linarith, rfl⟩
  · by_cases hin : c.InCache name = true
    · rw [if_pos hin]
      have hdel : ({ c with items := c.items.map (alDel name) } : FileCache).items =
          some (alDel name l) := by
        simp [hi]
      obtain ⟨e, c2, hok, hsz, hmx⟩ := add_fetch_ok_of_some hdel fs now name
      refine ⟨e, c2, hok, ?_, hmx⟩
      have hds : ({ c with items := c.items.map (alDel name) } : FileCache).Size ≤ c.Size := by
        simp only [FileCache.Size, FileCache.itemsList, hi, hdel, Option.getD_some]
        exact_mod_cast List.Sublist.length_le (alDel_sublist name l)
      linarith
    · rw [if_neg hin]
      exact add_fetch_ok_of_some hi fs now name


/-! ## Claim C1 -/

/-- C1: for every cache state, filesystem snapshot, time and key, the
staleness decision item_expired returns true exactly when the
changed-on-disk check is true, or ExpireItem is nonzero and the
aged-out check is true; in particular a changed or vanished file makes
the entry stale even when ExpireItem is 0 and regardless of age. -/
theorem C1_item_expired_combination (c : FileCache) (fs : FS) (now : Int) (name : String) :
    c.item_expired fs now name =
      (c.changed fs name || ((c.ExpireItem != 0) && c.expired now name)) := by
  unfold FileCache.item_expired
  cases h : c.changed fs name
  · cases h2 : (c.ExpireItem != 0) && c.expired now name <;> simp [h, h2]
  · simp [h]

/-! ## Claim C4 -/

/-- C4: with a cached entry and ExpireItem = N > 0, the aged-out check
expired marks the entry stale exactly when the last access is at least
N whole seconds in the past, with the stated boundary behavior at
exactly N seconds and at N - 1 seconds. -/
theorem C4_expired_boundary (c : FileCache) (now : Int) (name : String)
    (itm : cacheItem) (N : Int) (hl : c.lookupItem name = some itm)
    (hN : c.ExpireItem = N) (hpos : 0 < N) :
    (c.expired now name = true ↔ now - itm.Lastaccess ≥ N) ∧
    (now - itm.Lastaccess = N → c.expired now name = true) ∧
    (now - itm.Lastaccess = N - 1 → c.expired now name = false) := by
  unfold FileCache.expired
  rw [hl, hN]
  refine ⟨by simp, ?_, ?_⟩
  · intro h
    simp only [decide_eq_true_eq]
    omega
  · intro h
    simp only [decide_eq_false_iff_not]
    omega

/-- Witness for C4: entry a was last accessed at time 3 and ExpireItem
is 7; at time 10 the age is exactly 7 seconds. -/
theorem C4_expired_boundary_witness :
    (cAge.lookupItem "a" = some itmA ∧ cAge.ExpireItem = 7 ∧ (0 : Int) < 7) ∧
    ((cAge.expired 10 "a" = true ↔ (10 : Int) - itmA.Lastaccess ≥ 7) ∧
     ((10 : Int) - itmA.Lastaccess = 7 → cAge.expired 10 "a" = true) ∧
     ((10 : Int) - itmA.Lastaccess = 7 - 1 → cAge.expired 10 "a" = false)) :=
  ⟨⟨by decide, by decide, by decide⟩,
   C4_expired_boundary cAge 10 "a" itmA 7 (by decide) (by decide) (by decide)⟩

/-! ## Claim C9 -/

/-- C9: a cache-hit read through ReadFile returns the cached content
with no error signal, returns the store exactly as it was (so no entry
and no Lastaccess stamp changes) and spawns no background population;
GetItem returns the same cached content. -/
theorem C9_hit_read_frame (c : FileCache) (fs : FS) (name : String) (itm : cacheItem)
    (hl : c.lookupItem name = some itm) :
    c.ReadFile fs name = (itm.Content, none, c, []) ∧
    c.GetItem name = (itm.Content, true) := by
  have hin : c.InCache name = true := by
    simp [FileCache.InCache, hl]
  constructor
  · unfold FileCache.ReadFile
    rw [if_pos hin]
    unfold FileCache.GetItem
    rw [hl]
  · unfold FileCache.GetItem
    rw [hl]

/-- Witness for C9: reading the cached key a of cacheBase. -/
theorem C9_hit_read_frame_witness :
    cacheBase.lookupItem "a" = some itmA ∧
    (cacheBase.ReadFile fsA "a" = (itmA.Content, none, cacheBase, []) ∧
     cacheBase.GetItem "a" = (itmA.Content, true)) :=
  ⟨by decide, C9_hit_read_frame cacheBase fsA "a" itmA (by decide)⟩

/-! ## Claim C10 -/

/-- C10: on an inert cache (items is the nil map, as after Stop or
before any Start) every read-only accessor is total and reports an
empty cache: Size 0, FileSize 0, no stored files, no key in cache, and
GetItem reports not found. -/
theorem C10_inert_accessors (c : FileCache) (name : String) (hi : c.items = none) :
    c.Size = 0 ∧ c.FileSize = 0 ∧ c.StoredFiles = [] ∧
    c.InCache name = false ∧ c.GetItem name = ([], false) := by
  have hl : c.itemsList = [] := by
    simp [FileCache.itemsList, hi]
  refine ⟨?_, ?_, ?_, ?_, ?_⟩ <;>
    simp [FileCache.Size, FileCache.FileSize, FileCache.StoredFiles, FileCache.InCache,
      FileCache.GetItem, FileCache.lookupItem, hl, alGet]

/-- Witness for C10: the freshly constructed NewCache is inert. -/
theorem C10_inert_accessors_witness :
    NewCache.items = none ∧
    (NewCache.Size = 0 ∧ NewCache.FileSize = 0 ∧ NewCache.StoredFiles = [] ∧
     NewCache.InCache "a" = false ∧ NewCache.GetItem "a" = ([], false)) :=
  ⟨by decide, C10_inert_accessors NewCache "a" (by decide)⟩

/-! ## Claim C5 -/

/-- C5: the claim fails on ReadFileString.  On the uncached readable
key a, ReadFile returns the content together with ItemNotInCache, but
ReadFileString returns the same content with a nil error; on the key
bad whose read fails, ReadFile returns the read error while
ReadFileString again returns a nil error.  The short variable
declaration inside the miss branch of the source shadows the named
error return, so the string variant never surfaces either signal. -/
theorem C5_readfilestring_shadowing :
    cMiss.ReadFile fsA "a" = ([1, 2], some CacheErr.itemNotInCache, cMiss, ["a"]) ∧
    cMiss.ReadFileString fsA "a" = ([1, 2], none, cMiss, ["a"]) ∧
    cMiss.ReadFile fsA "bad" = ([], some CacheErr.osError, cMiss, ["bad"]) ∧
    cMiss.ReadFileString fsA "bad" = ([], none, cMiss, ["bad"]) := by
  decide

/-! ## Claim C6 -/

/-- C6: the claim fails on a second Stop.  Start then Stop leaves the
pipe field holding a closed channel; the next Stop closes the closed
channel and panics.  Start twice, and a single Stop, do not panic. -/
theorem C6_double_stop_panics :
    goSeq (goSeq NewCache.Start FileCache.Stop) FileCache.Stop = GoResult.panicked ∧
    goSeq NewCache.Start FileCache.Stop ≠ GoResult.panicked ∧
    goSeq NewCache.Start FileCache.Start ≠ GoResult.panicked ∧
    NewCache.Stop ≠ GoResult.panicked := by
  decide


/-! ## Claim C2 -/

theorem add_item_absent {c : FileCache} {fs : FS} {now : Int} {name : String}
    (hin : c.InCache name = false) :
    c.add_item fs now name = c.add_fetch fs now name := by
  unfold FileCache.add_item
  rw [hin]
  simp

theorem add_item_stale {c : FileCache} {fs : FS} {now : Int} {name : String}
    (hin : c.InCache name = true) (hexp : c.item_expired fs now name = true) :
    c.add_item fs now name =
      FileCache.add_fetch { c with items := c.items.map (alDel name) } fs now name := by
  unfold FileCache.add_item
  rw [hin, hexp]
  simp

theorem add_fetch_too_large {c : FileCache} {fs : FS} {now : Int} {name : String}
    {fi : FileInfo} (hstat : fs.statF name = some fi) (hdir : fi.isDir = false)
    (hbig : fi.size > c.MaxSize) :
    c.add_fetch fs now name = GoResult.ok (some CacheErr.itemTooLarge, c) := by
  simp only [FileCache.add_fetch, hstat, hdir]
  rw [if_neg (by simp), if_pos hbig]

theorem add_item_too_large {c : FileCache} {fs : FS} {now : Int} {name : String}
    {fi : FileInfo} (hstat : fs.statF name = some fi) (hdir : fi.isDir = false)
    (hbig : fi.size > c.MaxSize)
    (hstale : c.lookupItem name = none ∨ c.item_expired fs now name = true) :
    resErr (c.add_item fs now name) = some (some CacheErr.itemTooLarge) ∧
    resItems (c.add_item fs now name) = some (c.items.map (alDel name)) ∧
    resLookup name (c.add_item fs now name) = some none := by
  cases hl : c.lookupItem name with
  | none =>
    have hin : c.InCache name = false := by
      simp [FileCache.InCache, hl]
    have hdel : c.items.map (alDel name) = c.items := by
      cases hi : c.items with
      | none => rfl
      | some l =>
        have hg : alGet name l = none := by
          have h0 := hl
          simp only [FileCache.lookupItem, FileCache.itemsList, hi, Option.getD_some] at h0
          exact h0
        simp [alDel_of_alGet_none hg]
    rw [add_item_absent hin, add_fetch_too_large hstat hdir hbig]
    refine ⟨rfl, ?_, ?_⟩
    · simp [resItems, hdel]
    · simp [resLookup, hl]
  | some itm =>
    have hin : c.InCache name = true := by
      simp [FileCache.InCache, hl]
    have hexp : c.item_expired fs now name = true := by
      rcases hstale with h0 | h0
      · rw [h0] at hl
        cases hl
      · exact h0
    have hbig2 : fi.size > ({ c with items := c.items.map (alDel name) } : FileCache).MaxSize :=
      hbig
    rw [add_item_stale hin hexp, add_fetch_too_large hstat hdir hbig2]
    refine ⟨rfl, rfl, ?_⟩
    simp only [resLookup]
    rw [lookupItem_mapDel, alGet_alDel_self]

/-- C2 (amended): synchronously populating a file whose size exceeds
MaxSize reports ItemTooLarge and never inserts the key, provided no
fresh entry for the key is present.  The store is changed only by the
forced pre-eviction that runs when the entry count equals MaxItems and
by the deletion of a stale pre-existing entry for the key; in
particular, when the count differs from MaxItems and the key is absent,
the store is left unchanged. -/
theorem C2_cachenow_too_large (c : FileCache) (fs : FS) (now : Int) (name : String)
    (fi : FileInfo) (hstat : fs.statF name = some fi) (hdir : fi.isDir = false)
    (hbig : fi.size > c.MaxSize)
    (hstale : c.lookupItem name = none ∨ c.item_expired fs now name = true) :
    resErr (c.CacheNow fs now name) = some (some CacheErr.itemTooLarge) ∧
    resItems (c.CacheNow fs now name) =
      some ((if (c.Size == c.MaxItems) = true then c.expire_oldest true now else c).items.map (alDel name)) ∧
    resLookup name (c.CacheNow fs now name) = some none ∧
    (((c.Size == c.MaxItems) = false ∧ c.lookupItem name = none) →
      resItems (c.CacheNow fs now name) = some c.items) := by
  by_cases hbq : (c.Size == c.MaxItems) = true
  · have hcn : c.CacheNow fs now name = (c.expire_oldest true now).add_item fs now name := by
      unfold FileCache.CacheNow
      rw [if_pos hbq]
    have hbig2 : fi.size > (c.expire_oldest true now).MaxSize := by
      rw [expire_oldest_MaxSize]
      exact hbig
    have hstale2 : (c.expire_oldest true now).lookupItem name = none ∨
        (c.expire_oldest true now).item_expired fs now name = true := by
      rcases expire_oldest_lookup c true now name with h0 | h0
      · exact Or.inl h0
      · rcases hstale with h1 | h1
        · exact Or.inl (by rw [h0, h1])
        · refine Or.inr ?_
          rw [item_expired_congr fs now name h0 (expire_oldest_ExpireItem c true now)]
          exact h1
    obtain ⟨ha, hb, hc⟩ := add_item_too_large hstat hdir hbig2 hstale2
    refine ⟨?_, ?_, ?_, ?_⟩
    · rw [hcn]
      exact ha
    · rw [hcn, if_pos hbq]
      exact hb
    · rw [hcn]
      exact hc
    · rintro ⟨h1, h2⟩
      rw [hbq] at h1
      cases h1
  · have hcn : c.CacheNow fs now name = c.add_item fs now name := by
      unfold FileCache.CacheNow
      rw [if_neg hbq]
    obtain ⟨ha, hb, hc⟩ := add_item_too_large hstat hdir hbig hstale
    refine ⟨?_, ?_, ?_, ?_⟩
    · rw [hcn]
      exact ha
    · rw [hcn, if_neg hbq]
      exact hb
    · rw [hcn]
      exact hc
    · rintro ⟨h1, h2⟩
      rw [hcn, hb]
      have hdel : c.items.map (alDel name) = c.items := by
        cases hi : c.items with
        | none => rfl
        | some l =>
          have hg : alGet name l = none := by
            have h0 := h2
            simp only [FileCache.lookupItem, FileCache.itemsList, hi, Option.getD_some] at h0
            exact h0
          simp [alDel_of_alGet_none hg]
      rw [hdel]

/-- C2 counterexample: cB1 is at capacity MaxItems 1 holding entry b;
synchronously populating the oversized file a reports ItemTooLarge as
the claim says, yet the item store does not stay unchanged: the forced
pre-eviction removed entry b, leaving an empty store. -/
theorem C2_counterexample_store_changed :
    resErr (cB1.CacheNow fsA 9 "a") = some (some CacheErr.itemTooLarge) ∧
    resItems (cB1.CacheNow fsA 9 "a") = some (some []) ∧
    cB1.items = some [("b", itmB)] := by
  decide

/-- Witness for the amended C2 at cEmpty5: off capacity and key absent,
file a larger than MaxSize 0; the call reports ItemTooLarge and leaves
the store unchanged. -/
theorem C2_cachenow_too_large_witness :
    (fsA.statF "a" = some { size := 2, isDir := false, modTime := 5 } ∧
     ({ size := 2, isDir := false, modTime := 5 } : FileInfo).isDir = false ∧
     ({ size := 2, isDir := false, modTime := 5 } : FileInfo).size > cEmpty5.MaxSize ∧
     cEmpty5.lookupItem "a" = none) ∧
    (resErr (cEmpty5.CacheNow fsA 9 "a") = some (some CacheErr.itemTooLarge) ∧
     resItems (cEmpty5.CacheNow fsA 9 "a") =
       some ((if (cEmpty5.Size == cEmpty5.MaxItems) = true then cEmpty5.expire_oldest true 9 else cEmpty5).items.map (alDel "a")) ∧
     resLookup "a" (cEmpty5.CacheNow fsA 9 "a") = some none ∧
     (((cEmpty5.Size == cEmpty5.MaxItems) = false ∧ cEmpty5.lookupItem "a" = none) →
       resItems (cEmpty5.CacheNow fsA 9 "a") = some cEmpty5.items)) :=
  ⟨⟨by decide, by decide, by decide, by decide⟩,
   C2_cachenow_too_large cEmpty5 fsA 9 "a" { size := 2, isDir := false, modTime := 5 }
     (by decide) (by decide) (by decide) (Or.inl (by decide))⟩


/-! ## Claim C3 -/

/-- C3 (amended): when CacheNow runs with the entry count equal to
MaxItems on a nonempty store whose keys are nonempty and distinct,
exactly one entry is evicted before the insert — the entry selected by
the eviction scan, which carries the smallest lastAccessAt of the
store — and the call returns without panicking with a post-insert
entry count of at most MaxItems. -/
theorem C3_cachenow_evicts_oldest (c : FileCache) (fs : FS) (now : Int) (name : String)
    (q : String × cacheItem) (L : List (String × cacheItem))
    (hi : c.items = some (q :: L))
    (hk : ∀ p ∈ q :: L, p.1 ≠ "")
    (hnd : ((q :: L).map Prod.fst).Nodup)
    (hsz : (((q :: L).length : Nat) : Int) = c.MaxItems) :
    Option.map cacheItem.Lastaccess (alGet (oldestName c now) (q :: L)) =
      some (oldestStamp c now) ∧
    minLastAccessB c (oldestStamp c now) = true ∧
    (c.expire_oldest true now).items = some (alDel (oldestName c now) (q :: L)) ∧
    ((alDel (oldestName c now) (q :: L)).length : Int) = ((q :: L).length : Int) - 1 ∧
    resSizeLe c.MaxItems (c.CacheNow fs now name) = true := by
  obtain ⟨k0, i0⟩ := q
  have hIL : c.itemsList = (k0, i0) :: L := by
    simp [FileCache.itemsList, hi]
  have hstep : scanOldest true c.itemsList (now, "") =
      scanOldest true L (i0.Lastaccess, k0) := by
    rw [hIL, scanOldest_start]
  have hk0 : k0 ≠ "" := hk (k0, i0) (List.mem_cons_self _ _)
  have hrest : ∀ p ∈ L, p.1 ≠ "" := fun p hp => hk p (List.mem_cons_of_mem _ hp)
  obtain ⟨h1, h2, h3, h4⟩ := scanOldest_spec L i0.Lastaccess k0 hk0 hrest
  have hon : oldestName c now = (scanOldest true L (i0.Lastaccess, k0)).2 := by
    unfold oldestName
    rw [hstep]
  have hos : oldestStamp c now = (scanOldest true L (i0.Lastaccess, k0)).1 := by
    unfold oldestStamp
    rw [hstep]
  have hmem : ∃ itm, ((scanOldest true L (i0.Lastaccess, k0)).2, itm) ∈ (k0, i0) :: L ∧
      (scanOldest true L (i0.Lastaccess, k0)).1 = itm.Lastaccess := by
    rcases h4 with heq | ⟨itm2, hm, hv⟩
    · refine ⟨i0, ?_, ?_⟩
      · rw [heq]
        exact List.mem_cons_self _ _
      · rw [heq]
    · exact ⟨itm2, List.mem_cons_of_mem _ hm, hv⟩
  obtain ⟨itm, hmem2, hval⟩ := hmem
  have hget : alGet (oldestName c now) ((k0, i0) :: L) = some itm := by
    rw [hon]
    exact alGet_of_mem_nodup hnd hmem2
  have clause1 : Option.map cacheItem.Lastaccess (alGet (oldestName c now) ((k0, i0) :: L)) =
      some (oldestStamp c now) := by
    rw [hget, hos, hval]
    rfl
  have hminP : ∀ p ∈ (k0, i0) :: L,
      (scanOldest true L (i0.Lastaccess, k0)).1 ≤ p.2.Lastaccess := by
    intro p hp
    rcases List.mem_cons.mp hp with rfl | hp2
    · exact h2
    · exact h3 p hp2
  have clause2 : minLastAccessB c (oldestStamp c now) = true := by
    unfold minLastAccessB
    rw [hIL, List.all_eq_true]
    intro p hp
    rw [decide_eq_true_eq, hos]
    exact hminP p hp
  have hbr : ((scanOldest true c.itemsList (now, "")).2 != "") = true := by
    rw [hstep]
    exact bne_iff_ne.mpr h1
  have clause3 : c.expire_oldest true now =
      { c with items := some (alDel (oldestName c now) ((k0, i0) :: L)) } := by
    unfold FileCache.expire_oldest oldestName
    rw [if_pos hbr, hi]
    rfl
  have hc1i : (c.expire_oldest true now).items =
      some (alDel (oldestName c now) ((k0, i0) :: L)) := by
    rw [clause3]
  have hmemO : (oldestName c now, itm) ∈ (k0, i0) :: L := by
    rw [hon]
    exact hmem2
  have hdelL := alDel_length_of_mem hnd hmemO
  have clause4 : ((alDel (oldestName c now) ((k0, i0) :: L)).length : Int) =
      (((k0, i0) :: L).length : Int) - 1 := by
    omega
  have hS : c.Size = (((k0, i0) :: L).length : Int) := by
    unfold FileCache.Size
    rw [hIL]
  have hbq : (c.Size == c.MaxItems) = true := by
    simp only [beq_iff_eq, hS]
    exact hsz
  have hcn : c.CacheNow fs now name = (c.expire_oldest true now).add_item fs now name := by
    unfold FileCache.CacheNow
    rw [if_pos hbq]
  obtain ⟨e, c2, hok, hszb, hmx⟩ := add_item_ok_of_some hc1i fs now name
  have hIL2 : (c.expire_oldest true now).itemsList =
      alDel (oldestName c now) ((k0, i0) :: L) := by
    rw [clause3]
    rfl
  have hc1S : (c.expire_oldest true now).Size = (((k0, i0) :: L).length : Int) - 1 := by
    unfold FileCache.Size
    rw [hIL2]
    exact clause4
  have hc2 : c2.Size ≤ c.MaxItems := by
    rw [hc1S] at hszb
    calc c2.Size ≤ (((k0, i0) :: L).length : Int) - 1 + 1 := hszb
      _ = (((k0, i0) :: L).length : Int) := by ring
      _ = c.MaxItems := hsz
  have clause5 : resSizeLe c.MaxItems (c.CacheNow fs now name) = true := by
    rw [hcn, hok]
    simp only [resSizeLe]
    exact decide_eq_true hc2
  exact ⟨clause1, clause2, hc1i, clause4, clause5⟩

/-- C3 counterexample: cacheBase holds two entries while MaxItems is 0
(a state CacheNow itself produces under MaxItems 0, since eviction only
fires when the count equals MaxItems exactly); populating file c pushes
the count beyond MaxItems, yet no entry is evicted — both previous
entries survive — and the post-insert count 3 exceeds MaxItems 0. -/
theorem C3_counterexample_no_eviction :
    cacheBase.MaxItems = 0 ∧
    resErr (cacheBase.CacheNow fsA 9 "c") = some none ∧
    resItems (cacheBase.CacheNow fsA 9 "c") =
      some (some [("a", itmA), ("b", itmB),
        ("c", { Content := [9], Size := 1, Lastaccess := 9, Modified := 2 })]) ∧
    resSizeLe cacheBase.MaxItems (cacheBase.CacheNow fsA 9 "c") = false := by
  decide

/-- Witness for the amended C3 at cAB2: entries a and b at capacity 2;
populating file c evicts exactly the entry with the smallest
lastAccessAt and the post-insert count stays at MaxItems. -/
theorem C3_cachenow_evicts_oldest_witness :
    (cAB2.items = some (("a", itmA) :: [("b", itmB)]) ∧
     (∀ p ∈ ("a", itmA) :: [("b", itmB)], p.1 ≠ "") ∧
     (((("a", itmA) :: [("b", itmB)]).map Prod.fst).Nodup) ∧
     (((("a", itmA) :: [("b", itmB)]).length : Nat) : Int) = cAB2.MaxItems) ∧
    (Option.map cacheItem.Lastaccess (alGet (oldestName cAB2 9) (("a", itmA) :: [("b", itmB)])) =
       some (oldestStamp cAB2 9) ∧
     minLastAccessB cAB2 (oldestStamp cAB2 9) = true ∧
     (cAB2.expire_oldest true 9).items =
       some (alDel (oldestName cAB2 9) (("a", itmA) :: [("b", itmB)])) ∧
     ((alDel (oldestName cAB2 9) (("a", itmA) :: [("b", itmB)])).length : Int) =
       ((("a", itmA) :: [("b", itmB)]).length : Int) - 1 ∧
     resSizeLe cAB2.MaxItems (cAB2.CacheNow fsA 9 "c") = true) :=
  ⟨⟨by decide, by decide, by decide, by decide⟩,
   C3_cachenow_evicts_oldest cAB2 fsA 9 "c" ("a", itmA) [("b", itmB)]
     (by decide) (by decide) (by decide) (by decide)⟩


/-! ## Claim C7 -/

theorem sweepExpired_items (c : FileCache) (fs : FS) (now : Int)
    (l : List (String × cacheItem)) (hi : c.items = some l) :
    c.sweepExpired fs now =
      { c with items := some (l.filter (fun p => !(c.item_expired fs now p.1))) } := by
  simp only [FileCache.sweepExpired, hi]

theorem shrinkTo_spec (now : Int) :
    ∀ (fuel : Nat) (c : FileCache) (l : List (String × cacheItem)),
      c.items = some l → (∀ p ∈ l, p.1 ≠ "") → (l.map Prod.fst).Nodup →
      0 ≤ c.MaxItems → ((l.length : Int) ≤ (fuel : Int) + c.MaxItems) →
      ∃ l2, (c.shrinkTo now fuel).items = some l2 ∧
        (∀ p ∈ l2, p ∈ l) ∧
        ((l2.map Prod.fst).Nodup) ∧
        ((l2.length : Int) ≤ c.MaxItems) ∧
        (c.shrinkTo now fuel).MaxItems = c.MaxItems ∧
        (c.shrinkTo now fuel).ExpireItem = c.ExpireItem := by
  intro fuel
  induction fuel with
  | zero =>
    intro c l hi hk hnd hm hfuel
    refine ⟨l, ?_, fun p hp => hp, hnd, ?_, rfl, rfl⟩
    · simpa [FileCache.shrinkTo] using hi
    · simpa using hfuel
  | succ fuel ih =>
    intro c l hi hk hnd hm hfuel
    have hS : c.Size = (l.length : Int) := by
      unfold FileCache.Size
      simp [FileCache.itemsList, hi]
    by_cases hgt : c.Size > c.MaxItems
    · have hred : c.shrinkTo now (fuel + 1) = (c.expire_oldest true now).shrinkTo now fuel := by
        show (if c.Size > c.MaxItems then (c.expire_oldest true now).shrinkTo now fuel else c) =
          (c.expire_oldest true now).shrinkTo now fuel
        rw [if_pos hgt]
      cases l with
      | nil =>
        exfalso
        simp only [List.length_nil, Nat.cast_zero] at hS
        omega
      | cons q L =>
        obtain ⟨k, itm, hmem, hmin, heq⟩ := expire_oldest_spec c now q L hi hk
        have hi2 : (c.expire_oldest true now).items = some (alDel k (q :: L)) := by
          rw [heq]
        have hk2 : ∀ p ∈ alDel k (q :: L), p.1 ≠ "" :=
          fun p hp => hk p (mem_of_mem_alDel hp)
        have hnd2 : ((alDel k (q :: L)).map Prod.fst).Nodup :=
          List.Nodup.sublist (List.Sublist.map Prod.fst (alDel_sublist k (q :: L))) hnd
        have hm2 : 0 ≤ (c.expire_oldest true now).MaxItems := by
          rw [expire_oldest_MaxItems]
          exact hm
        have hlen2 := alDel_length_of_mem hnd hmem
        have hfuel2 : ((alDel k (q :: L)).length : Int) ≤
            (fuel : Int) + (c.expire_oldest true now).MaxItems := by
          rw [expire_oldest_MaxItems]
          push_cast at hfuel
          omega
        obtain ⟨l2, ha, hb, hc, hd, he, hf⟩ :=
          ih (c.expire_oldest true now) (alDel k (q :: L)) hi2 hk2 hnd2 hm2 hfuel2
        refine ⟨l2, ?_, ?_, hc, ?_, ?_, ?_⟩
        · rw [hred]
          exact ha
        · exact fun p hp => mem_of_mem_alDel (hb p hp)
        · rw [← expire_oldest_MaxItems c true now]
          exact hd
        · rw [hred, he, expire_oldest_MaxItems]
        · rw [hred, hf, expire_oldest_ExpireItem]
    · have hred : c.shrinkTo now (fuel + 1) = c := by
        unfold FileCache.shrinkTo
        rw [if_neg hgt]
      refine ⟨l, ?_, fun p hp => hp, hnd, ?_, ?_, ?_⟩
      · rw [hred]
        exact hi
      · omega
      · rw [hred]
      · rw [hred]

/-- C7: immediately after one cycle of the maintenance loop on an
active store whose keys are nonempty and distinct and whose MaxItems is
nonnegative, no stored key is marked expired by the staleness policy
and the entry count is at most MaxItems. -/
theorem C7_vaccuum_cycle_clean (c : FileCache) (fs : FS) (now : Int)
    (l : List (String × cacheItem)) (hi : c.items = some l)
    (hk : ∀ p ∈ l, p.1 ≠ "") (hnd : (l.map Prod.fst).Nodup)
    (hm : 0 ≤ c.MaxItems) :
    expiredFreeB (c.vaccuumCycle fs now) fs now = true ∧
    (c.vaccuumCycle fs now).Size ≤ c.MaxItems := by
  have hsw := sweepExpired_items c fs now l hi
  have hswI : (c.sweepExpired fs now).items =
      some (l.filter (fun p => !(c.item_expired fs now p.1))) := by
    rw [hsw]
  have hswIL : (c.sweepExpired fs now).itemsList =
      l.filter (fun p => !(c.item_expired fs now p.1)) := by
    rw [hsw]
    rfl
  have hswM : (c.sweepExpired fs now).MaxItems = c.MaxItems := by
    rw [hsw]
  have hswE : (c.sweepExpired fs now).ExpireItem = c.ExpireItem := by
    rw [hsw]
  have hkf : ∀ p ∈ l.filter (fun p => !(c.item_expired fs now p.1)), p.1 ≠ "" :=
    fun p hp => hk p (List.mem_filter.mp hp).1
  have hndf : ((l.filter (fun p => !(c.item_expired fs now p.1))).map Prod.fst).Nodup :=
    List.Nodup.sublist (List.Sublist.map Prod.fst (List.filter_sublist l)) hnd
  have hmf : 0 ≤ (c.sweepExpired fs now).MaxItems := by
    rw [hswM]
    exact hm
  have hfuel : (((l.filter (fun p => !(c.item_expired fs now p.1))).length : Int)) ≤
      (((c.sweepExpired fs now).itemsList.length : Nat) : Int) +
        (c.sweepExpired fs now).MaxItems := by
    rw [hswIL, hswM]
    omega
  obtain ⟨l2, ha, hb, hc, hd, he, hf⟩ :=
    shrinkTo_spec now (c.sweepExpired fs now).itemsList.length (c.sweepExpired fs now)
      (l.filter (fun p => !(c.item_expired fs now p.1))) hswI hkf hndf hmf hfuel
  have hvc : c.vaccuumCycle fs now =
      (c.sweepExpired fs now).shrinkTo now (c.sweepExpired fs now).itemsList.length := rfl
  have hvcI : (c.vaccuumCycle fs now).itemsList = l2 := by
    have h0 : (c.vaccuumCycle fs now).items = some l2 := by
      rw [hvc]
      exact ha
    simp [FileCache.itemsList, h0]
  constructor
  · unfold expiredFreeB
    rw [hvcI, List.all_eq_true]
    intro p hp
    have hpf : p ∈ l.filter (fun p => !(c.item_expired fs now p.1)) := hb p hp
    have hpl : p ∈ l := (List.mem_filter.mp hpf).1
    have hpe : c.item_expired fs now p.1 = false := by
      have h0 := (List.mem_filter.mp hpf).2
      simpa using h0
    obtain ⟨key, v⟩ := p
    have hlook2 : (c.vaccuumCycle fs now).lookupItem key = some v := by
      unfold FileCache.lookupItem
      rw [hvcI]
      exact alGet_of_mem_nodup hc hp
    have hlook1 : c.lookupItem key = some v := by
      unfold FileCache.lookupItem
      rw [show c.itemsList = l from by simp [FileCache.itemsList, hi]]
      exact alGet_of_mem_nodup hnd hpl
    have hEI : (c.vaccuumCycle fs now).ExpireItem = c.ExpireItem := by
      rw [hvc, hf, hswE]
    have hcongr := @item_expired_congr c (c.vaccuumCycle fs now) fs now key
      (by rw [hlook2, hlook1]) hEI
    rw [hcongr, hpe]
    rfl
  · have hSz : (c.vaccuumCycle fs now).Size = (l2.length : Int) := by
      unfold FileCache.Size
      rw [hvcI]
    rw [hSz]
    calc (l2.length : Int) ≤ (c.sweepExpired fs now).MaxItems := hd
      _ = c.MaxItems := hswM

/-- Witness for C7 at cacheBase against fsA at time 9: entry b has
vanished from the disk, so the sweep removes it; MaxItems 0 then forces
the shrink phase to evict entry a, leaving a clean empty store. -/
theorem C7_vaccuum_cycle_clean_witness :
    (cacheBase.items = some [("a", itmA), ("b", itmB)] ∧
     (∀ p ∈ [("a", itmA), ("b", itmB)], p.1 ≠ "") ∧
     (([("a", itmA), ("b", itmB)].map Prod.fst).Nodup) ∧
     (0 : Int) ≤ cacheBase.MaxItems) ∧
    (expiredFreeB (cacheBase.vaccuumCycle fsA 9) fsA 9 = true ∧
     (cacheBase.vaccuumCycle fsA 9).Size ≤ cacheBase.MaxItems) :=
  ⟨⟨by decide, by decide, by decide, by decide⟩,
   C7_vaccuum_cycle_clean cacheBase fsA 9 [("a", itmA), ("b", itmB)]
     (by decide) (by decide) (by decide) (by decide)⟩


/-! ## Claim C8 -/

theorem statF_size_eq {fs : FS} {name : String} {fi : FileInfo} {content : Bytes}
    (hstat : fs.statF name = some fi) (hread : fs.readAll name = some content) :
    fi.size = (content.length : Int) := by
  cases hg : alGet name fs.files with
  | none =>
    simp only [FS.statF, hg] at hstat
    cases hstat
  | some d =>
    simp only [FS.statF, hg] at hstat
    simp only [FS.readAll, hg] at hread
    by_cases hs : d.statErr = true
    · rw [if_pos hs] at hstat
      cases hstat
    · rw [if_neg hs] at hstat
      by_cases hr : d.readErr = true
      · rw [if_pos hr] at hread
        cases hread
      · rw [if_neg hr] at hread
        simp only [Option.some.injEq] at hstat hread
        rw [← hstat, ← hread]

theorem sizeInvB_iff (c : FileCache) :
    sizeInvB c = true ↔ ∀ p ∈ c.itemsList, p.2.Size = (p.2.Content.length : Int) := by
  simp [sizeInvB, List.all_eq_true]

theorem sizeInv_subset {c c2 : FileCache}
    (hsub : ∀ p ∈ c2.itemsList, p ∈ c.itemsList)
    (hinv : sizeInvB c = true) : sizeInvB c2 = true := by
  rw [sizeInvB_iff] at hinv ⊢
  exact fun p hp => hinv p (hsub p hp)

theorem sweepExpired_mem {c : FileCache} {fs : FS} {now : Int} {p : String × cacheItem} :
    p ∈ (c.sweepExpired fs now).itemsList → p ∈ c.itemsList := by
  intro hp
  rcases hi : c.items with _ | l
  · simp only [FileCache.sweepExpired, hi] at hp
    exact hp
  · rw [sweepExpired_items c fs now l hi] at hp
    have hp2 : p ∈ l.filter (fun p => !(c.item_expired fs now p.1)) := hp
    have hp3 := (List.mem_filter.mp hp2).1
    simp [FileCache.itemsList, hi]
    exact hp3

theorem shrinkTo_mem (now : Int) :
    ∀ (fuel : Nat) (c : FileCache) (p : String × cacheItem),
      p ∈ (c.shrinkTo now fuel).itemsList → p ∈ c.itemsList := by
  intro fuel
  induction fuel with
  | zero =>
    intro c p hp
    simpa [FileCache.shrinkTo] using hp
  | succ fuel ih =>
    intro c p hp
    rw [show c.shrinkTo now (fuel + 1) =
        (if c.Size > c.MaxItems then (c.expire_oldest true now).shrinkTo now fuel else c)
      from rfl] at hp
    by_cases hgt : c.Size > c.MaxItems
    · rw [if_pos hgt] at hp
      exact expire_oldest_mem (ih _ p hp)
    · rw [if_neg hgt] at hp
      exact hp

theorem mem_of_alGet {β : Type} {k : String} {v : β} {l : List (String × β)}
    (h : alGet k l = some v) : (k, v) ∈ l := by
  induction l with
  | nil => cases h
  | cons q rest ih =>
    rw [alGet_cons] at h
    obtain ⟨q1, q2⟩ := q
    by_cases hq : q1 = k
    · rw [if_pos hq] at h
      have hv : q2 = v := Option.some.inj h
      rw [← hq, ← hv]
      exact List.mem_cons_self _ _
    · rw [if_neg hq] at h
      exact List.mem_cons_of_mem _ (ih h)

theorem add_fetch_sizeInv {c : FileCache} (fs : FS) (now : Int) (name : String)
    (hinv : sizeInvB c = true) : sizeInvR (c.add_fetch fs now name) = true := by
  unfold FileCache.add_fetch
  split
  · simpa [sizeInvR] using hinv
  · rename_i fi hstat
    split
    · simpa [sizeInvR] using hinv
    · split
      · simpa [sizeInvR] using hinv
      · split
        · simpa [sizeInvR] using hinv
        · rename_i content hread
          split
          · simp [sizeInvR]
          · rename_i l2 heq
            have hsz := statF_size_eq hstat hread
            have hmain : sizeInvB (c.withItem name (newItem fi content now) l2) = true := by
              rw [sizeInvB_iff]
              intro p hp
              have hp2 : p ∈ alSet name (newItem fi content now) l2 := by
                simpa [FileCache.withItem, FileCache.itemsList] using hp
              rcases mem_alSet hp2 with rfl | hmem
              · simpa [newItem] using hsz
              · have hl3 : p ∈ c.itemsList := by
                  simp only [FileCache.itemsList, heq, Option.getD_some]
                  exact hmem
                exact (sizeInvB_iff c).mp hinv p hl3
            split
            · simpa [sizeInvR] using hmain
            · simpa [sizeInvR] using hmain

theorem add_item_sizeInv {c : FileCache} (fs : FS) (now : Int) (name : String)
    (hinv : sizeInvB c = true) : sizeInvR (c.add_item fs now name) = true := by
  unfold FileCache.add_item
  split
  · simpa [sizeInvR] using hinv
  · split
    · refine add_fetch_sizeInv fs now name ?_
      refine sizeInv_subset ?_ hinv
      intro p hp
      rw [itemsList_mapDel] at hp
      exact mem_of_mem_alDel hp
    · exact add_fetch_sizeInv fs now name hinv

/-- C8: the invariant that every stored entry records the byte length
of its content as its size is preserved by every store operation
(population, synchronous population with eviction, forced eviction, the
two phases of the maintenance loop, removal, activation and
deactivation); under the invariant, WriteItem with a sink that accepts
every byte never reports WriteIncomplete. -/
theorem C8_size_invariant (c : FileCache) (fs : FS) (now : Int) (name : String)
    (hinv : sizeInvB c = true) :
    sizeInvR (c.add_item fs now name) = true ∧
    sizeInvR (c.CacheNow fs now name) = true ∧
    sizeInvB (c.expire_oldest true now) = true ∧
    sizeInvB (c.sweepExpired fs now) = true ∧
    sizeInvB (c.vaccuumCycle fs now) = true ∧
    sizeInvB (c.Remove name).2 = true ∧
    sizeInvG c.Start = true ∧
    sizeInvG c.Stop = true ∧
    c.WriteItem fullWriter name ≠ some CacheErr.writeIncomplete := by
  have hoeInv : sizeInvB (c.expire_oldest true now) = true :=
    sizeInv_subset (fun p hp => expire_oldest_mem hp) hinv
  refine ⟨add_item_sizeInv fs now name hinv, ?_, hoeInv, ?_, ?_, ?_, ?_, ?_, ?_⟩
  · unfold FileCache.CacheNow
    split
    · exact add_item_sizeInv fs now name hoeInv
    · exact add_item_sizeInv fs now name hinv
  · exact sizeInv_subset (fun p hp => sweepExpired_mem hp) hinv
  · refine sizeInv_subset ?_ hinv
    intro p hp
    exact sweepExpired_mem (shrinkTo_mem now _ _ p hp)
  · unfold FileCache.Remove
    split
    · simpa using hinv
    · split
      · refine sizeInv_subset ?_ hinv
        intro p hp
        rw [itemsList_mapDel] at hp
        exact mem_of_mem_alDel hp
      · refine sizeInv_subset ?_ hinv
        intro p hp
        rw [itemsList_mapDel] at hp
        exact mem_of_mem_alDel hp
  · unfold FileCache.Start
    split
    · simp [sizeInvG]
    · simp [sizeInvG, sizeInvB, FileCache.itemsList]
  · unfold FileCache.Stop
    split
    · simp [sizeInvG]
    · simp [sizeInvG, sizeInvB, FileCache.itemsList]
  · unfold FileCache.WriteItem
    split
    · simp
    · rename_i itm hl
      have hmem : (name, itm) ∈ c.itemsList := mem_of_alGet hl
      have hs : itm.Size = (itm.Content.length : Int) :=
        (sizeInvB_iff c).mp hinv (name, itm) hmem
      simp [fullWriter, hs]

/-- Witness for C8 at cacheBase: both stored entries satisfy the size
invariant, and every operation above preserves it. -/
theorem C8_size_invariant_witness :
    sizeInvB cacheBase = true ∧
    (sizeInvR (cacheBase.add_item fsA 9 "a") = true ∧
     sizeInvR (cacheBase.CacheNow fsA 9 "a") = true ∧
     sizeInvB (cacheBase.expire_oldest true 9) = true ∧
     sizeInvB (cacheBase.sweepExpired fsA 9) = true ∧
     sizeInvB (cacheBase.vaccuumCycle fsA 9) = true ∧
     sizeInvB (cacheBase.Remove "a").2 = true ∧
     sizeInvG cacheBase.Start = true ∧
     sizeInvG cacheBase.Stop = true ∧
     cacheBase.WriteItem fullWriter "a" ≠ some CacheErr.writeIncomplete) :=
  ⟨by decide, C8_size_invariant cacheBase fsA 9 "a" (by decide)⟩

end Filecache
